import Mathlib

/-!
# Verification of the raze streaming-upload body pipeline

Shallow embedding of the core streaming upload body transformation pipeline of
the `raze` BackBlaze B2 client library:

* the SHA-1 hash accumulator (crate `sha1`, used by every pipeline variant),
* the digest-trailing byte sources (`HashAtEndOfBody::read` in
  `src/api/files/structs.rs`, `AsyncReadHashAtEnd::poll_read` in
  `src/util/readers.rs`, `BytesStreamHashAtEnd::poll_next` in
  `src/utils/readers.rs`),
* the rate-limited byte sources (`ThrottledHashAtEndOfBody::read`,
  `AsyncReadThrottled::poll_read`, `BytesStreamThrottled::poll_next`),
* the declared upload content length (`b2_upload_file` in
  `src/api/b2_upload_file.rs`, `upload_file_streaming` / `upload_file_throttled`
  in `src/api/files/upload.rs`).

Bytes are modelled as `Nat` (values < 256 where they come from real data),
byte strings as `List Nat`, machine words as `Nat` with explicit `% 2^32`.
-/

namespace Raze

/-! ## SHA-1 (the `sha1` crate's algorithm, as used by all pipeline variants) -/

/-- 2^32, the word modulus of SHA-1's 32-bit arithmetic. -/
def w32 : Nat := 4294967296

/-- Rotate the 32-bit word `x` left by `n` bits (`0 < n < 32`, `x < 2^32`):
the low `32 - n` bits are shifted up and the high `n` bits wrap to the bottom. -/
def rotl (n x : Nat) : Nat := (x % 2 ^ (32 - n)) * 2 ^ n + x / 2 ^ (32 - n)

/-- The eight big-endian bytes encoding the 64-bit message bit length. -/
def lenBytes (l : Nat) : List Nat :=
  (List.range 8).map (fun i => 8 * l / 2 ^ (8 * (7 - i)) % 256)

/-- Standard SHA-1 padding: append `0x80`, zero bytes up to 56 mod 64, then the
64-bit big-endian bit length. -/
def padMsg (m : List Nat) : List Nat :=
  let l := m.length
  let zeros := (120 - (l + 1) % 64) % 64
  m ++ 128 :: List.replicate zeros 0 ++ lenBytes l

/-- Split the padded message into 64-byte blocks. -/
def blocksOf (l : List Nat) : List (List Nat) :=
  (List.range (l.length / 64)).map (fun i => (l.drop (64 * i)).take 64)

/-- The sixteen big-endian 32-bit words of one 64-byte block. -/
def wordsOf (b : List Nat) : List Nat :=
  (List.range 16).map (fun i =>
    b.getD (4 * i) 0 * 16777216 + b.getD (4 * i + 1) 0 * 65536 +
    b.getD (4 * i + 2) 0 * 256 + b.getD (4 * i + 3) 0)

/-- One step of the SHA-1 message schedule: append
`rotl 1 (w[n-3] xor w[n-8] xor w[n-14] xor w[n-16])`. -/
def extendStep (ws : List Nat) : List Nat :=
  let n := ws.length
  ws ++ [rotl 1 (Nat.xor (Nat.xor (ws.getD (n - 3) 0) (ws.getD (n - 8) 0))
                 (Nat.xor (ws.getD (n - 14) 0) (ws.getD (n - 16) 0)))]

/-- Extend the sixteen block words to the eighty schedule words. -/
def extendWords (ws : List Nat) : List Nat :=
  (List.range 64).foldl (fun acc _ => extendStep acc) ws

/-- The SHA-1 round function and round constant for round `i` (32-bit words). -/
def fk (i b c d : Nat) : Nat × Nat :=
  if i < 20 then (Nat.lor (Nat.land b c) (Nat.land (w32 - 1 - b) d), 1518500249)
  else if i < 40 then (Nat.xor (Nat.xor b c) d, 1859775393)
  else if i < 60 then
    (Nat.lor (Nat.lor (Nat.land b c) (Nat.land b d)) (Nat.land c d), 2400959708)
  else (Nat.xor (Nat.xor b c) d, 3395469782)

/-- The five 32-bit chaining words of the SHA-1 state. -/
structure Sha1Core where
  h0 : Nat
  h1 : Nat
  h2 : Nat
  h3 : Nat
  h4 : Nat

/-- SHA-1 compression of one 64-byte block into the chaining state. -/
def compressBlock (h : Sha1Core) (block : List Nat) : Sha1Core :=
  let ws := extendWords (wordsOf block)
  let step := fun (st : Nat × Nat × Nat × Nat × Nat) (i : Nat) =>
    let a := st.1
    let b := st.2.1
    let c := st.2.2.1
    let d := st.2.2.2.1
    let e := st.2.2.2.2
    let f := (fk i b c d).1
    let k := (fk i b c d).2
    ((rotl 5 a + f + e + k + ws.getD i 0) % w32, a, rotl 30 b, c, d)
  let r := (List.range 80).foldl step (h.h0, h.h1, h.h2, h.h3, h.h4)
  ⟨(h.h0 + r.1) % w32, (h.h1 + r.2.1) % w32, (h.h2 + r.2.2.1) % w32,
   (h.h3 + r.2.2.2.1) % w32, (h.h4 + r.2.2.2.2) % w32⟩

/-- The SHA-1 initialization vector. -/
def sha1Init : Sha1Core := ⟨1732584193, 4023233417, 2562383102, 271733878, 3285377520⟩

/-- The five words of the SHA-1 digest of a byte string. -/
def sha1Words (m : List Nat) : List Nat :=
  let final := (blocksOf (padMsg m)).foldl compressBlock sha1Init
  [final.h0, final.h1, final.h2, final.h3, final.h4]

/-- ASCII code of the lowercase hexadecimal digit for `n < 16`. -/
def hexChar (n : Nat) : Nat := if n < 10 then 48 + n else 87 + n

/-- The eight lowercase-hex ASCII bytes of a 32-bit word, most significant first. -/
def wordHex (w : Nat) : List Nat :=
  (List.range 8).map (fun i => hexChar (w / 2 ^ (4 * (7 - i)) % 16))

/-- The 40 lowercase hexadecimal ASCII bytes of the SHA-1 digest of `m`: the
`hexdigest()` / `format!` rendering of the `sha1` crate's digest, appended as
the trailer by every digest-trailing source. -/
def sha1Hex (m : List Nat) : List Nat := ((sha1Words m).map wordHex).flatten

/-- The 20 ASCII bytes of the test input of the repository's unit tests,
the string "hello this is a test". -/
def helloBytes : List Nat :=
  [104, 101, 108, 108, 111, 32, 116, 104, 105, 115, 32, 105, 115, 32, 97, 32,
   116, 101, 115, 116]

/-- The ASCII bytes of `f291f60cafb2ef2e0013f5a5889b1da5af4b4657`, the expected
SHA-1 hex digest of `helloBytes` recorded in the repository's unit tests. -/
def helloDigestHex : List Nat :=
  [102, 50, 57, 49, 102, 54, 48, 99, 97, 102, 98, 50, 101, 102, 50, 101, 48, 48,
   49, 51, 102, 53, 97, 53, 56, 56, 57, 98, 49, 100, 97, 53, 97, 102, 52, 98,
   52, 54, 53, 55]

/-! ## The digest-trailing byte sources

`HashBody` is the state shared by the `std::io::Read`-based sources of
`src/api/files/structs.rs` (`HashAtEndOfBody`, `ThrottledHashAtEndOfBody`) and
by the file-backed instance of `AsyncReadHashAtEnd` of `src/util/readers.rs`:
the remaining bytes of the wrapped file, the bytes already fed to the `Sha1`
accumulator, and `hash_read`, the number of trailer bytes already delivered. -/

/-- State of a digest-trailing source wrapping a (deterministic) file:
`file` is what the wrapped source has not yet delivered, `hashed` the bytes fed
to the hasher so far, `hash_read` the count of delivered trailer bytes. -/
structure HashBody where
  file : List Nat
  hashed : List Nat
  hash_read : Nat
deriving DecidableEq, Repr

/-- Initial pipeline state for uploading `input`: nothing hashed, no trailer
bytes delivered. -/
def HashBody.init (input : List Nat) : HashBody := ⟨input, [], 0⟩

/-- Embedding of `HashAtEndOfBody::read` (`src/api/files/structs.rs`).
A call with a caller buffer of `bufSize` bytes first reads from the file
(`self.file.read(buf)` delivers `min bufSize file.length` bytes and advances
the file), then follows the source's three cases, returning the bytes placed
into the caller's buffer together with the successor state. -/
def HashAtEndOfBody.read (s : HashBody) (bufSize : Nat) : List Nat × HashBody :=
  let len := min bufSize s.file.length
  let s1 : HashBody := ⟨s.file.drop len, s.hashed, s.hash_read⟩
  if (len = 0 ∧ s.hash_read = 0) ∨ (0 < s.hash_read ∧ s.hash_read < 40) then
    let digest := sha1Hex s.hashed
    if bufSize < 40 ∨ 0 < s.hash_read then
      let end_index := min 40 (s.hash_read + bufSize)
      let read_amount := end_index - s.hash_read
      ((digest.drop s.hash_read).take read_amount,
        ⟨s1.file, s1.hashed, end_index⟩)
    else
      (digest, ⟨s1.file, s1.hashed, 40⟩)
  else if len = 0 ∨ s.hash_read = 40 then
    ([], s1)
  else
    (s.file.take len, ⟨s1.file, s1.hashed ++ s.file.take len, s1.hash_read⟩)

/-- Guarded variant of `HashAtEndOfBody.read` that returns `none` exactly where
the Rust code would panic: on a `usize` subtraction underflow
(`end_index - self.hash_read`), an out-of-range slice of the caller's buffer
(`buf[0..read_amount]`), an out-of-range slice of the 40-byte digest string
(`[self.hash_read..end_index]`), or an out-of-range `buf[0..40]`. -/
def HashAtEndOfBody.readChecked (s : HashBody) (bufSize : Nat) :
    Option (List Nat × HashBody) :=
  let len := min bufSize s.file.length
  let s1 : HashBody := ⟨s.file.drop len, s.hashed, s.hash_read⟩
  if (len = 0 ∧ s.hash_read = 0) ∨ (0 < s.hash_read ∧ s.hash_read < 40) then
    let digest := sha1Hex s.hashed
    if bufSize < 40 ∨ 0 < s.hash_read then
      let end_index := min 40 (s.hash_read + bufSize)
      if s.hash_read ≤ end_index ∧ end_index ≤ 40 ∧
          end_index - s.hash_read ≤ bufSize then
        some ((digest.drop s.hash_read).take (end_index - s.hash_read),
          ⟨s1.file, s1.hashed, end_index⟩)
      else none
    else
      if 40 ≤ bufSize then some (digest, ⟨s1.file, s1.hashed, 40⟩)
      else none
  else if len = 0 ∨ s.hash_read = 40 then
    some ([], s1)
  else
    some (s.file.take len, ⟨s1.file, s1.hashed ++ s.file.take len, s1.hash_read⟩)

/-- Embedding of `ThrottledHashAtEndOfBody::read` (`src/api/files/structs.rs`).
Identical to `HashAtEndOfBody.read` except that the file read is capped at
2048 bytes (`buf[0..2048]`), and that in the file-data branch the thread sleeps
for `(len/bandwidth * 1000) as u64` milliseconds before returning. The third
component of the result is that sleep in whole milliseconds
(`⌊1000·len/bandwidth⌋`); the other branches return without sleeping. -/
def ThrottledHashAtEndOfBody.read (bandwidth : Nat) (s : HashBody)
    (bufSize : Nat) : List Nat × HashBody × Nat :=
  let len := if 2048 ≤ bufSize then min 2048 s.file.length
             else min bufSize s.file.length
  let s1 : HashBody := ⟨s.file.drop len, s.hashed, s.hash_read⟩
  if (len = 0 ∧ s.hash_read = 0) ∨ (0 < s.hash_read ∧ s.hash_read < 40) then
    let digest := sha1Hex s.hashed
    if bufSize < 40 ∨ 0 < s.hash_read then
      let end_index := min 40 (s.hash_read + bufSize)
      let read_amount := end_index - s.hash_read
      ((digest.drop s.hash_read).take read_amount,
        ⟨s1.file, s1.hashed, end_index⟩, 0)
    else
      (digest, ⟨s1.file, s1.hashed, 40⟩, 0)
  else if len = 0 ∨ s.hash_read = 40 then
    ([], s1, 0)
  else
    (s.file.take len,
      ⟨s1.file, s1.hashed ++ s.file.take len, s1.hash_read⟩,
      1000 * len / bandwidth)

/-- Wrapper-owned state of `AsyncReadHashAtEnd` (`src/util/readers.rs`): the
`Sha1` accumulator (as the bytes fed so far) and `hash_read`. -/
structure HashWrap where
  hashed : List Nat
  hash_read : Nat
deriving DecidableEq, Repr

/-- Embedding of `AsyncReadHashAtEnd::poll_read` (`src/util/readers.rs`) for
one poll whose inner reader's result is `innerResult`: `Except.error e` when
the inner `poll_read` failed, `Except.ok chunk` when it wrote `chunk` into the
caller's buffer (so `chunk.length ≤ bufSize` for a law-abiding inner reader).
Returns the poll result (bytes placed into the buffer, or the propagated
error) together with the successor wrapper state. -/
def AsyncReadHashAtEnd.pollRead (innerResult : Except Nat (List Nat))
    (bufSize : Nat) (s : HashWrap) : Except Nat (List Nat) × HashWrap :=
  match innerResult with
  | Except.error e => (Except.error e, s)
  | Except.ok chunk =>
    if 0 < chunk.length then
      (Except.ok chunk, ⟨s.hashed ++ chunk, s.hash_read⟩)
    else if s.hash_read < 40 then
      let digest := sha1Hex s.hashed
      let remaining := bufSize
      if remaining < 40 ∨ 0 < s.hash_read then
        let hash_end_index := min 40 (s.hash_read + remaining)
        let hash_read_amount := hash_end_index - s.hash_read
        (Except.ok ((digest.drop s.hash_read).take hash_read_amount),
          ⟨s.hashed, hash_end_index⟩)
      else
        (Except.ok digest, ⟨s.hashed, 40⟩)
    else
      (Except.ok [], s)

/-- `AsyncReadHashAtEnd` wrapped around a deterministic file-backed
`AsyncRead` (which writes `min bufSize remaining` bytes per poll): one poll of
the composed source on a `HashBody` state. -/
def AsyncReadHashAtEnd.fileStep (s : HashBody) (bufSize : Nat) :
    List Nat × HashBody :=
  let chunk := s.file.take bufSize
  match AsyncReadHashAtEnd.pollRead (Except.ok chunk) bufSize
      ⟨s.hashed, s.hash_read⟩ with
  | (Except.ok out, w) => (out, ⟨s.file.drop bufSize, w.hashed, w.hash_read⟩)
  | (Except.error _, w) => ([], ⟨s.file.drop bufSize, w.hashed, w.hash_read⟩)

/-- State of `BytesStreamHashAtEnd` (`src/utils/readers.rs`) together with its
wrapped stream: `inner` is the script of items the inner stream will still
yield (each `Except.ok` a `Bytes` chunk, each `Except.error` an `io::Error`,
the stream ending — `None` forever — once the list is exhausted), `hashed` the
bytes fed to the `Sha1` accumulator, `done` the `done` flag. -/
structure BSHash where
  inner : List (Except Nat (List Nat))
  hashed : List Nat
  done : Bool
deriving Repr

/-- Initial `BytesStreamHashAtEnd::wrap` state over an inner stream script. -/
def BSHash.init (inner : List (Except Nat (List Nat))) : BSHash :=
  ⟨inner, [], false⟩

/-- Embedding of `BytesStreamHashAtEnd::poll_next` (`src/utils/readers.rs`):
an `Ok` chunk is hashed and passed through, the first `None` after the inner
stream ends yields the 40-byte hex digest as one chunk and sets `done`, later
polls yield `none`; inner errors pass through with the wrapper state (hash
accumulator and `done` flag) untouched. -/
def BytesStreamHashAtEnd.pollNext (s : BSHash) :
    Option (Except Nat (List Nat)) × BSHash :=
  match s.inner with
  | Except.ok bytes :: rest =>
    (some (Except.ok bytes), ⟨rest, s.hashed ++ bytes, s.done⟩)
  | Except.error e :: rest => (some (Except.error e), ⟨rest, s.hashed, s.done⟩)
  | [] =>
    if !s.done then (some (Except.ok (sha1Hex s.hashed)), ⟨[], s.hashed, true⟩)
    else (none, s)

/-! ## Drains: pulling a source to end-of-stream

A drain repeatedly pulls with caller buffer sizes `sizes 0, sizes 1, …` and
concatenates everything delivered, stopping when a pull delivers nothing (the
caller's end-of-stream observation) or when the fuel runs out. -/

/-- Drain of `HashAtEndOfBody` with per-pull buffer sizes `sizes`. -/
def drainSync (fuel : Nat) (s : HashBody) (sizes : Nat → Nat) (i : Nat) :
    List Nat :=
  match fuel with
  | 0 => []
  | fuel + 1 =>
    let r := HashAtEndOfBody.read s (sizes i)
    if r.1 = [] then [] else r.1 ++ drainSync fuel r.2 sizes (i + 1)

/-- Drain of the file-backed `AsyncReadHashAtEnd`. -/
def drainAsync (fuel : Nat) (s : HashBody) (sizes : Nat → Nat) (i : Nat) :
    List Nat :=
  match fuel with
  | 0 => []
  | fuel + 1 =>
    let r := AsyncReadHashAtEnd.fileStep s (sizes i)
    if r.1 = [] then [] else r.1 ++ drainAsync fuel r.2 sizes (i + 1)

/-- Drain of `ThrottledHashAtEndOfBody` (output bytes only). -/
def drainThrottled (bandwidth fuel : Nat) (s : HashBody) (sizes : Nat → Nat)
    (i : Nat) : List Nat :=
  match fuel with
  | 0 => []
  | fuel + 1 =>
    let r := ThrottledHashAtEndOfBody.read bandwidth s (sizes i)
    if r.1 = [] then []
    else r.1 ++ drainThrottled bandwidth fuel r.2.1 sizes (i + 1)

/-- Drain of `BytesStreamHashAtEnd`: the list of chunks delivered up to the
first `none` (error chunks stop the drain; with an error-free inner script
none occur). -/
def drainStream (fuel : Nat) (s : BSHash) : List (List Nat) :=
  match fuel with
  | 0 => []
  | fuel + 1 =>
    match BytesStreamHashAtEnd.pollNext s with
    | (some (Except.ok bytes), s1) => bytes :: drainStream fuel s1
    | (some (Except.error _), _) => []
    | (none, _) => []

/-! ## The rate-limited byte sources (timing model)

`AsyncReadThrottled::poll_read` (`src/util/readers.rs`) and
`BytesStreamThrottled::poll_next` (`src/utils/readers.rs`) keep one piece of
timing state: the deadline of the `tokio::time::Sleep`, initialized to the
construction instant. A poll first awaits the sleep, then reads from the inner
source, and resets the deadline to `now + read_amount / bandwidth` (for the
stream version: only when the item is an `Ok` chunk, zero-length included).
Wall-clock time is idealized as `ℚ` (exact arithmetic in place of `f32`). -/

/-- Timing state of `AsyncReadThrottled` / `BytesStreamThrottled`: the sleep
deadline. -/
structure ThrottleState where
  deadline : ℚ
deriving DecidableEq

/-- One delivering poll of `AsyncReadThrottled::poll_read` (equally, one
`Ok`-chunk poll of `BytesStreamThrottled::poll_next`), polled at `pollTime`,
with the inner source delivering `size` bytes: the sleep completes at
`max pollTime deadline`, the chunk is delivered there, and the deadline is
reset to `deliveryTime + size / bandwidth`. Returns the delivery time and the
successor state. -/
def throttleStep (bandwidth : ℚ) (s : ThrottleState) (pollTime : ℚ)
    (size : Nat) : ℚ × ThrottleState :=
  let t := max pollTime s.deadline
  (t, ⟨t + (size : ℚ) / bandwidth⟩)

/-- The throttle delay a poll arriving at time `u` still has to wait. -/
def delayFor (s : ThrottleState) (u : ℚ) : ℚ := max 0 (s.deadline - u)

/-- Delivery times of a full drain of the cooperative throttled source:
`pulls` lists, per poll, the caller's think time since the previous delivery
(`gap`) and the chunk size the inner source yields; the first poll arrives at
`t + gap`. -/
def throttleTimes (bandwidth : ℚ) : ThrottleState → ℚ → List (ℚ × Nat) → List ℚ
  | _, _, [] => []
  | s, t, (gap, size) :: rest =>
    let d := throttleStep bandwidth s (t + gap) size
    d.1 :: throttleTimes bandwidth d.2 d.1 rest

/-! ## Declared upload content length -/

/-- The `Sha1Variant` enum of `src/api/b2_upload_file.rs`. -/
inductive Sha1Variant where
  | Precomputed (hash : List Nat)
  | HexAtEnd
  | DoNotVerify
deriving DecidableEq, Repr

/-- The `Content-Length` value computed by `b2_upload_file`
(`src/api/b2_upload_file.rs`, the `file_size` match): the declared size is the
caller's `file_size` plus 40 exactly in the hex-digits-at-end mode. -/
def b2UploadFileSize (v : Sha1Variant) (file_size : Nat) : Nat :=
  match v with
  | Sha1Variant.HexAtEnd => file_size + 40
  | _ => file_size

/-- The sized-body length passed by `upload_file_streaming`
(`src/api/files/upload.rs`: `reqwest::Body::sized(…, metadata.len()+40)`). -/
def uploadFileStreamingLength (metadataLen : Nat) : Nat := metadataLen + 40

/-- The sized-body length passed by `upload_file_throttled`
(`src/api/files/upload.rs`: `reqwest::Body::sized(…, metadata.len()+40)`). -/
def uploadFileThrottledLength (metadataLen : Nat) : Nat := metadataLen + 40

/-! ## Supporting lemmas -/

/-- The hex digest always has exactly 40 characters. -/
lemma sha1Hex_length (m : List Nat) : (sha1Hex m).length = 40 := by
  simp [sha1Hex, sha1Words, wordHex]

lemma sha1Hex_ne_nil (m : List Nat) : sha1Hex m ≠ [] := by
  intro h
  have := sha1Hex_length m
  rw [h] at this
  simp at this

/-- `HashAtEndOfBody::read` in the streaming phase: file data is passed
through and hashed. -/
lemma read_streaming (file h : List Nat) (b : Nat) (hb : 0 < b)
    (hf : file ≠ []) :
    HashAtEndOfBody.read ⟨file, h, 0⟩ b =
      (file.take (min b file.length),
       ⟨file.drop (min b file.length), h ++ file.take (min b file.length), 0⟩) := by
  have hpos : 0 < file.length := List.length_pos.mpr hf
  have hlen : ¬ (min b file.length = 0) := by omega
  simp [HashAtEndOfBody.read, hlen]

/-- `HashAtEndOfBody::read` delivering a split trailer slice. -/
lemma read_trailer (h : List Nat) (r b : Nat) (hr : r < 40)
    (hc : b < 40 ∨ 0 < r) :
    HashAtEndOfBody.read ⟨[], h, r⟩ b =
      (((sha1Hex h).drop r).take (min 40 (r + b) - r),
       ⟨[], h, min 40 (r + b)⟩) := by
  simp only [HashAtEndOfBody.read, List.length_nil, Nat.min_zero, List.drop_nil]
  split_ifs <;>
    first
      | rfl
      | (exfalso; omega)
      | (exfalso; simp_all)

/-- `HashAtEndOfBody::read` delivering the whole 40-byte trailer at once. -/
lemma read_trailer_full (h : List Nat) (b : Nat) (hb : 40 ≤ b) :
    HashAtEndOfBody.read ⟨[], h, 0⟩ b = (sha1Hex h, ⟨[], h, 40⟩) := by
  simp only [HashAtEndOfBody.read, List.length_nil, Nat.min_zero, List.drop_nil]
  split_ifs <;>
    first
      | rfl
      | (exfalso; omega)
      | (exfalso; simp_all)

/-- `HashAtEndOfBody::read` once file and trailer are exhausted. -/
lemma read_done (h : List Nat) (r b : Nat) (hr : 40 ≤ r) :
    HashAtEndOfBody.read ⟨[], h, r⟩ b = ([], ⟨[], h, r⟩) := by
  simp only [HashAtEndOfBody.read, List.length_nil, Nat.min_zero, List.drop_nil]
  split_ifs <;>
    first
      | rfl
      | (exfalso; omega)
      | (exfalso; simp_all)

/-- Splitting a suffix of a list at an intermediate index. -/
lemma drop_take_drop (l : List Nat) (r e : Nat) (hre : r ≤ e) :
    (l.drop r).take (e - r) ++ l.drop e = l.drop r := by
  have h1 : l.drop e = (l.drop r).drop (e - r) := by
    rw [List.drop_drop]
    congr 1
    omega
  rw [h1, List.take_append_drop]

/-- Trailer-phase drain of `HashAtEndOfBody`: starting at trailer offset `r`,
the remaining pulls deliver exactly the last `40 - r` digest characters, no
matter how the caller sizes its buffers. -/
lemma drainSync_trailer (sizes : Nat → Nat) (hpos : ∀ j, 0 < sizes j) :
    ∀ fuel r h i, r ≤ 40 → 41 - r ≤ fuel →
      drainSync fuel ⟨[], h, r⟩ sizes i = (sha1Hex h).drop r := by
  intro fuel
  induction fuel with
  | zero => intro r h i hr hf; omega
  | succ n ih =>
    intro r h i hr hf
    by_cases h40 : r = 40
    · subst h40
      simp only [drainSync, read_done h 40 (sizes i) (le_refl 40)]
      simp [List.drop_eq_nil_of_le, sha1Hex_length]
    · have hrlt : r < 40 := by omega
      by_cases hc : sizes i < 40 ∨ 0 < r
      · have hb := hpos i
        have hre : r < min 40 (r + sizes i) := by omega
        have he40 : min 40 (r + sizes i) ≤ 40 := by omega
        have houtlen : (((sha1Hex h).drop r).take (min 40 (r + sizes i) - r)).length
            = min 40 (r + sizes i) - r := by
          simp [List.length_take, List.length_drop, sha1Hex_length]
          omega
        have hout : ((sha1Hex h).drop r).take (min 40 (r + sizes i) - r) ≠ [] := by
          intro hnil
          rw [hnil] at houtlen
          simp at houtlen
          omega
        simp only [drainSync, read_trailer h r (sizes i) hrlt hc]
        simp only [hout, if_false, ite_false, if_neg]
        rw [ih (min 40 (r + sizes i)) h (i + 1) he40 (by omega)]
        exact drop_take_drop _ r (min 40 (r + sizes i)) (le_of_lt hre)
      · have hr0 : r = 0 := by omega
        have hb40 : 40 ≤ sizes i := by omega
        subst hr0
        simp only [drainSync, read_trailer_full h (sizes i) hb40]
        simp only [sha1Hex_ne_nil h, if_neg, ite_false, if_false]
        rw [ih 40 h (i + 1) (le_refl 40) (by omega)]
        simp [List.drop_eq_nil_of_le, sha1Hex_length]

/-- Full drain of `HashAtEndOfBody` from a mid-stream state: the output is the
rest of the file followed by the hex digest of everything hashed. -/
lemma drainSync_spec (sizes : Nat → Nat) (hpos : ∀ j, 0 < sizes j) :
    ∀ fuel file h i, file.length + 41 ≤ fuel →
      drainSync fuel ⟨file, h, 0⟩ sizes i = file ++ sha1Hex (h ++ file) := by
  intro fuel
  induction fuel with
  | zero => intro file h i hf; omega
  | succ n ih =>
    intro file h i hf
    by_cases hfile : file = []
    · subst hfile
      rw [drainSync_trailer sizes hpos (n + 1) 0 h i (by omega) (by omega)]
      simp
    · have hflen : 0 < file.length := List.length_pos.mpr hfile
      have hb := hpos i
      have hlen : 0 < min (sizes i) file.length := by omega
      have hne : file.take (min (sizes i) file.length) ≠ [] := by
        intro hnil
        have h2 := congrArg List.length hnil
        simp only [List.length_take, List.length_nil] at h2
        omega
      simp only [drainSync, read_streaming file h (sizes i) hb hfile]
      simp only [hne, if_neg, ite_false, if_false]
      rw [ih (file.drop (min (sizes i) file.length))
          (h ++ file.take (min (sizes i) file.length)) (i + 1)
          (by simp [List.length_drop]; omega)]
      rw [← List.append_assoc, List.take_append_drop, List.append_assoc,
        List.take_append_drop]

/-- A read on an exhausted file leaves the file empty and the hash unchanged,
whatever the trailer offset. -/
lemma read_empty_state (h : List Nat) (r b : Nat) :
    ∃ out r2, HashAtEndOfBody.read ⟨[], h, r⟩ b = (out, ⟨[], h, r2⟩) := by
  by_cases hr : r < 40
  · by_cases hc : b < 40 ∨ 0 < r
    · exact ⟨_, _, read_trailer h r b hr hc⟩
    · have hr0 : r = 0 := by omega
      subst hr0
      exact ⟨_, _, read_trailer_full h b (by omega)⟩
  · exact ⟨_, _, read_done h r b (by omega)⟩

/-- On an exhausted file the async and sync digest-trailing reads coincide. -/
lemma fileStep_eq_on_empty (h : List Nat) (r b : Nat) :
    AsyncReadHashAtEnd.fileStep ⟨[], h, r⟩ b = HashAtEndOfBody.read ⟨[], h, r⟩ b := by
  by_cases hr : r < 40
  · by_cases hc : b < 40 ∨ 0 < r
    · rw [read_trailer h r b hr hc]
      simp [AsyncReadHashAtEnd.fileStep, AsyncReadHashAtEnd.pollRead, hr, hc]
    · have hr0 : r = 0 := by omega
      subst hr0
      have hb40 : ¬ (b < 40) := by omega
      rw [read_trailer_full h b (by omega)]
      simp [AsyncReadHashAtEnd.fileStep, AsyncReadHashAtEnd.pollRead, hc, hb40]
  · rw [read_done h r b (by omega)]
    simp [AsyncReadHashAtEnd.fileStep, AsyncReadHashAtEnd.pollRead, hr]

/-- The async digest-trailing source passes file data through and hashes it. -/
lemma fileStep_streaming (file h : List Nat) (b : Nat) (hb : 0 < b)
    (hf : file ≠ []) :
    AsyncReadHashAtEnd.fileStep ⟨file, h, 0⟩ b =
      (file.take b, ⟨file.drop b, h ++ file.take b, 0⟩) := by
  have hflen : 0 < file.length := List.length_pos.mpr hf
  simp [AsyncReadHashAtEnd.fileStep, AsyncReadHashAtEnd.pollRead, hb, hflen]

/-- Once the file is exhausted, the async and sync drains agree pull by pull. -/
lemma drainAsync_eq_on_empty (sizes : Nat → Nat) :
    ∀ fuel h r i, drainAsync fuel ⟨[], h, r⟩ sizes i
      = drainSync fuel ⟨[], h, r⟩ sizes i := by
  intro fuel
  induction fuel with
  | zero => intros; rfl
  | succ n ih =>
    intro h r i
    obtain ⟨out, r2, heq⟩ := read_empty_state h r (sizes i)
    simp only [drainAsync, drainSync, fileStep_eq_on_empty, heq]
    by_cases hout : out = [] <;> simp [hout, ih]

/-- Full drain of the file-backed `AsyncReadHashAtEnd`. -/
lemma drainAsync_spec (sizes : Nat → Nat) (hpos : ∀ j, 0 < sizes j) :
    ∀ fuel file h i, file.length + 41 ≤ fuel →
      drainAsync fuel ⟨file, h, 0⟩ sizes i = file ++ sha1Hex (h ++ file) := by
  intro fuel
  induction fuel with
  | zero => intro file h i hf; omega
  | succ n ih =>
    intro file h i hf
    by_cases hfile : file = []
    · subst hfile
      rw [drainAsync_eq_on_empty sizes (n + 1) h 0 i,
        drainSync_trailer sizes hpos (n + 1) 0 h i (by omega) (by omega)]
      simp
    · have hflen : 0 < file.length := List.length_pos.mpr hfile
      have hb := hpos i
      have hne : file.take (sizes i) ≠ [] := by
        intro hnil
        have h2 := congrArg List.length hnil
        simp only [List.length_take, List.length_nil] at h2
        omega
      simp only [drainAsync, fileStep_streaming file h (sizes i) hb hfile]
      simp only [hne, if_neg, ite_false, if_false]
      rw [ih (file.drop (sizes i)) (h ++ file.take (sizes i)) (i + 1)
          (by simp only [List.length_drop]; omega)]
      rw [← List.append_assoc, List.take_append_drop, List.append_assoc,
        List.take_append_drop]

/-- On an exhausted file the throttled read is the sync read with no sleep. -/
lemma thr_read_on_empty (bw : Nat) (h : List Nat) (r b : Nat) :
    ThrottledHashAtEndOfBody.read bw ⟨[], h, r⟩ b =
      ((HashAtEndOfBody.read ⟨[], h, r⟩ b).1,
       (HashAtEndOfBody.read ⟨[], h, r⟩ b).2, 0) := by
  simp only [ThrottledHashAtEndOfBody.read, HashAtEndOfBody.read, List.length_nil,
    Nat.min_zero, ite_self, List.drop_nil]
  split_ifs <;> first | rfl | simp_all

/-- The throttled source in the streaming phase: the file read is capped at
2048 bytes, the chunk is hashed, passed through, and the thread sleeps
`⌊1000·len/bandwidth⌋` milliseconds before delivering it. -/
lemma thr_read_streaming (bw : Nat) (file h : List Nat) (b : Nat) (hb : 0 < b)
    (hf : file ≠ []) :
    ThrottledHashAtEndOfBody.read bw ⟨file, h, 0⟩ b =
      (file.take (if 2048 ≤ b then min 2048 file.length else min b file.length),
       ⟨file.drop (if 2048 ≤ b then min 2048 file.length else min b file.length),
        h ++ file.take (if 2048 ≤ b then min 2048 file.length else min b file.length),
        0⟩,
       1000 * (if 2048 ≤ b then min 2048 file.length else min b file.length) / bw) := by
  have hflen : 0 < file.length := List.length_pos.mpr hf
  have hLne : ¬ ((if 2048 ≤ b then min 2048 file.length else min b file.length) = 0) := by
    split <;> omega
  simp [ThrottledHashAtEndOfBody.read, hLne]

/-- Once the file is exhausted, throttled and sync drains agree pull by pull. -/
lemma drainThrottled_eq_on_empty (bw : Nat) (sizes : Nat → Nat) :
    ∀ fuel h r i, drainThrottled bw fuel ⟨[], h, r⟩ sizes i
      = drainSync fuel ⟨[], h, r⟩ sizes i := by
  intro fuel
  induction fuel with
  | zero => intros; rfl
  | succ n ih =>
    intro h r i
    obtain ⟨out, r2, heq⟩ := read_empty_state h r (sizes i)
    simp only [drainThrottled, drainSync, thr_read_on_empty, heq]
    by_cases hout : out = [] <;> simp [hout, ih]

/-- Full drain of `ThrottledHashAtEndOfBody` (byte content only). -/
lemma drainThrottled_spec (bw : Nat) (sizes : Nat → Nat) (hpos : ∀ j, 0 < sizes j) :
    ∀ fuel file h i, file.length + 41 ≤ fuel →
      drainThrottled bw fuel ⟨file, h, 0⟩ sizes i = file ++ sha1Hex (h ++ file) := by
  intro fuel
  induction fuel with
  | zero => intro file h i hf; omega
  | succ n ih =>
    intro file h i hf
    by_cases hfile : file = []
    · subst hfile
      rw [drainThrottled_eq_on_empty bw sizes (n + 1) h 0 i,
        drainSync_trailer sizes hpos (n + 1) 0 h i (by omega) (by omega)]
      simp
    · have hflen : 0 < file.length := List.length_pos.mpr hfile
      have hb := hpos i
      have hL : 0 < (if 2048 ≤ sizes i then min 2048 file.length
          else min (sizes i) file.length) := by
        split <;> omega
      have hne : file.take (if 2048 ≤ sizes i then min 2048 file.length
          else min (sizes i) file.length) ≠ [] := by
        intro hnil
        have h2 := congrArg List.length hnil
        simp only [List.length_take, List.length_nil] at h2
        omega
      simp only [drainThrottled, thr_read_streaming bw file h (sizes i) hb hfile]
      simp only [hne, if_neg, ite_false, if_false]
      rw [ih (file.drop (if 2048 ≤ sizes i then min 2048 file.length
            else min (sizes i) file.length))
          (h ++ file.take (if 2048 ≤ sizes i then min 2048 file.length
            else min (sizes i) file.length)) (i + 1)
          (by simp only [List.length_drop]; omega)]
      rw [← List.append_assoc, List.take_append_drop, List.append_assoc,
        List.take_append_drop]

/-- The stream wrapper with an exhausted inner stream and `done` set yields
nothing, whatever the fuel. -/
lemma drainStream_done (fuel : Nat) (h : List Nat) :
    drainStream fuel ⟨[], h, true⟩ = [] := by
  cases fuel <;> rfl

/-- Full drain of `BytesStreamHashAtEnd` over an error-free inner stream:
the chunks pass through and the digest of their concatenation is appended. -/
lemma drainStream_spec :
    ∀ (cs : List (List Nat)) (fuel : Nat) (h : List Nat), cs.length + 2 ≤ fuel →
      (drainStream fuel ⟨cs.map Except.ok, h, false⟩).flatten
        = cs.flatten ++ sha1Hex (h ++ cs.flatten) := by
  intro cs
  induction cs with
  | nil =>
    intro fuel h hf
    cases fuel with
    | zero => simp at hf
    | succ n =>
      show (sha1Hex h :: drainStream n ⟨[], h, true⟩).flatten = _
      rw [drainStream_done n h]
      simp
  | cons c cs ih =>
    intro fuel h hf
    cases fuel with
    | zero => simp at hf
    | succ n =>
      show (c :: drainStream n ⟨cs.map Except.ok, h ++ c, false⟩).flatten = _
      have hn : cs.length + 2 ≤ n := by
        simp only [List.length_cons] at hf
        omega
      rw [List.flatten_cons, ih n (h ++ c) hn]
      simp [List.append_assoc]

/-- First delivery time of a nonempty throttled drain: the later of the first
poll's arrival and the stored deadline. -/
lemma throttleTimes_head (bw : ℚ) (s : ThrottleState) (t : ℚ) (p : ℚ × Nat)
    (ps : List (ℚ × Nat)) :
    (throttleTimes bw s t (p :: ps)).getD 0 0 = max (t + p.1) s.deadline := by
  simp [throttleTimes, throttleStep]

/-- The first delivery never happens before the stored deadline. -/
lemma throttleTimes_head_ge (bw : ℚ) (s : ThrottleState) (t : ℚ) (p : ℚ × Nat)
    (ps : List (ℚ × Nat)) :
    s.deadline ≤ (throttleTimes bw s t (p :: ps)).getD 0 0 := by
  rw [throttleTimes_head]
  exact le_max_right _ _

/-- Lagging throttle invariant of the cooperative sources: consecutive
deliveries are separated by at least (previous chunk size) / bandwidth. -/
lemma throttleTimes_sep (bw : ℚ) :
    ∀ (ps : List (ℚ × Nat)) (s : ThrottleState) (t : ℚ) (i : Nat),
      i + 1 < ps.length →
      (throttleTimes bw s t ps).getD i 0 + ((ps.getD i (0, 0)).2 : ℚ) / bw
        ≤ (throttleTimes bw s t ps).getD (i + 1) 0 := by
  intro ps
  induction ps with
  | nil => intro s t i hi; simp at hi
  | cons p rest ih =>
    intro s t i hi
    cases i with
    | zero =>
      cases rest with
      | nil => simp at hi
      | cons q rest2 =>
        simp only [throttleTimes, throttleStep, List.getD_cons_zero,
          List.getD_cons_succ]
        exact le_max_right _ _
    | succ j =>
      simp only [List.length_cons] at hi
      simp only [throttleTimes, throttleStep, List.getD_cons_succ]
      exact ih _ _ j (by omega)

/-- Full-drain lower bound for the cooperative throttled sources: the last
delivery trails the first by at least (sum of all but the last chunk's
sizes) / bandwidth. -/
lemma throttleTimes_span (bw : ℚ) :
    ∀ (ps : List (ℚ × Nat)) (s : ThrottleState) (t : ℚ), ps ≠ [] →
      (throttleTimes bw s t ps).getD 0 0
          + ((ps.dropLast.map fun p => ((p.2 : Nat) : ℚ)).sum) / bw
        ≤ (throttleTimes bw s t ps).getD (ps.length - 1) 0 := by
  intro ps
  induction ps with
  | nil => intro s t hne; exact absurd rfl hne
  | cons p rest ih =>
    intro s t _
    cases rest with
    | nil => simp [throttleTimes]
    | cons q rest2 =>
      have hne2 : q :: rest2 ≠ ([] : List (ℚ × Nat)) := by simp
      have hih := ih ⟨max (t + p.1) s.deadline + (p.2 : ℚ) / bw⟩
        (max (t + p.1) s.deadline) hne2
      have hhead := throttleTimes_head_ge bw
        ⟨max (t + p.1) s.deadline + (p.2 : ℚ) / bw⟩
        (max (t + p.1) s.deadline) q rest2
      simp only [throttleTimes, throttleStep, List.getD_cons_zero,
        List.getD_cons_succ, List.length_cons, Nat.add_sub_cancel] at hih hhead ⊢
      have hsum : (((p :: q :: rest2).dropLast.map fun p => ((p.2 : Nat) : ℚ)).sum)
          = (p.2 : ℚ) + (((q :: rest2).dropLast.map fun p => ((p.2 : Nat) : ℚ)).sum) := by
        simp [List.dropLast]
      rw [hsum, add_div, ← add_assoc]
      calc max (t + p.1) s.deadline + (p.2 : ℚ) / bw
            + (((q :: rest2).dropLast.map fun p => ((p.2 : Nat) : ℚ)).sum) / bw
          ≤ (throttleTimes bw ⟨max (t + p.1) s.deadline + (p.2 : ℚ) / bw⟩
              (max (t + p.1) s.deadline) (q :: rest2)).getD 0 0
            + (((q :: rest2).dropLast.map fun p => ((p.2 : Nat) : ℚ)).sum) / bw := by
            exact add_le_add_right hhead _
        _ ≤ _ := hih

/-! ## Claim theorems -/

set_option maxRecDepth 8000

/-- C1 (amended: the test input is 20 bytes, not 21). For the digest-trailing
byte source, for every input byte sequence and every sequence of positive
caller buffer sizes, the concatenation of all bytes delivered across a full
drain equals the input bytes followed by the 40-character lowercase hex SHA-1
digest of the input; in particular for the 20-byte input
"hello this is a test" the drains with buffer sizes 4, 21, 40 and 1024 all
yield the same concatenated result, the input followed by
f291f60cafb2ef2e0013f5a5889b1da5af4b4657. -/
theorem hash_at_end_drain_concat (input : List Nat) (sizes : Nat → Nat)
    (hpos : ∀ j, 0 < sizes j) :
    drainSync (input.length + 41) (HashBody.init input) sizes 0
        = input ++ sha1Hex input ∧
    (sha1Hex input).length = 40 ∧
    sha1Hex helloBytes = helloDigestHex ∧
    drainSync 61 (HashBody.init helloBytes) (fun _ => 4) 0
        = helloBytes ++ helloDigestHex ∧
    drainSync 61 (HashBody.init helloBytes) (fun _ => 21) 0
        = helloBytes ++ helloDigestHex ∧
    drainSync 61 (HashBody.init helloBytes) (fun _ => 40) 0
        = helloBytes ++ helloDigestHex ∧
    drainSync 61 (HashBody.init helloBytes) (fun _ => 1024) 0
        = helloBytes ++ helloDigestHex := by
  have hd : sha1Hex helloBytes = helloDigestHex := by decide
  have hmain : ∀ k : Nat, 0 < k →
      drainSync 61 (HashBody.init helloBytes) (fun _ => k) 0
        = helloBytes ++ helloDigestHex := by
    intro k hk
    have hs := drainSync_spec (fun _ => k) (fun j => hk) 61 helloBytes [] 0
      (by decide)
    rw [← hd]
    simpa [HashBody.init] using hs
  refine ⟨?_, sha1Hex_length input, hd,
    hmain 4 (by decide), hmain 21 (by decide), hmain 40 (by decide),
    hmain 1024 (by decide)⟩
  have hs := drainSync_spec sizes hpos (input.length + 41) input [] 0 (le_refl _)
  simpa [HashBody.init] using hs

/-- Witness for C1: the universal drain theorem applied to the concrete
20-byte test input with constant buffer size 4. -/
theorem hash_at_end_drain_concat_witness :
    (∀ j : Nat, 0 < (fun _ => (4 : Nat)) j) ∧
    drainSync (helloBytes.length + 41) (HashBody.init helloBytes)
        (fun _ => 4) 0 = helloBytes ++ sha1Hex helloBytes :=
  ⟨fun _ => Nat.succ_pos 3,
   (hash_at_end_drain_concat helloBytes (fun _ => 4) (fun _ => Nat.succ_pos 3)).1⟩

/-- Counterexample for C1 as stated: the test input
"hello this is a test" has 20 bytes, not 21. -/
theorem hello_input_is_20_bytes :
    helloBytes.length = 20 ∧ ¬ (helloBytes.length = 21) := by decide

/-- C2. The declared upload content length is `S + 40` for the
hex-digits-at-end mode and `S` for the precomputed and do-not-verify modes;
the streaming and throttled uploads declare `file size + 40`. -/
theorem upload_length_by_mode (S : Nat) (hash : List Nat) :
    b2UploadFileSize Sha1Variant.HexAtEnd S = S + 40 ∧
    b2UploadFileSize Sha1Variant.DoNotVerify S = S ∧
    b2UploadFileSize (Sha1Variant.Precomputed hash) S = S ∧
    uploadFileStreamingLength S = S + 40 ∧
    uploadFileThrottledLength S = S + 40 :=
  ⟨rfl, rfl, rfl, rfl, rfl⟩

/-- C3 (amended: scoped to the cooperative sources only). For the cooperative
rate-limited sources (`AsyncReadThrottled`, `BytesStreamThrottled`) with
positive budget the original claims hold: consecutive deliveries are separated
by at least (earlier chunk size)/budget, the delay is inserted before the next
chunk and never before the current one, a first poll arriving at or after the
construction deadline is delivered with no throttle delay, and a full drain of
`N` bytes — the data pulls `ps` followed by the end-of-stream pull, which
delivers 0 bytes — takes wall-clock time at least
`(N - first_chunk_size) / budget`. The thread-blocking
`ThrottledHashAtEndOfBody`, by contrast, sleeps `⌊1000·len/bandwidth⌋`
milliseconds before returning the current file-data chunk of size `len` —
including the first — so there the delay precedes the current chunk, not the
next one. -/
theorem throttle_lagging_amended :
    (∀ (bw : ℚ) (ps : List (ℚ × Nat)) (s : ThrottleState) (t : ℚ) (i : Nat),
      i + 1 < ps.length →
      (throttleTimes bw s t ps).getD i 0 + ((ps.getD i (0, 0)).2 : ℚ) / bw
        ≤ (throttleTimes bw s t ps).getD (i + 1) 0) ∧
    (∀ (bw : ℚ) (s : ThrottleState) (t gap : ℚ) (size : Nat)
        (rest : List (ℚ × Nat)), s.deadline ≤ t + gap →
      (throttleTimes bw s t ((gap, size) :: rest)).getD 0 0 = t + gap) ∧
    (∀ (bw : ℚ) (ps : List (ℚ × Nat)) (g : ℚ) (s : ThrottleState) (t : ℚ),
      0 < bw →
      (throttleTimes bw s t (ps ++ [(g, 0)])).getD 0 0
          + (((ps.map fun p => ((p.2 : Nat) : ℚ)).sum)
              - ((ps.getD 0 (0, 0)).2 : ℚ)) / bw
        ≤ (throttleTimes bw s t (ps ++ [(g, 0)])).getD ps.length 0) ∧
    (∀ (bw : Nat) (file h : List Nat) (b : Nat), file ≠ [] → 0 < b →
      (ThrottledHashAtEndOfBody.read bw ⟨file, h, 0⟩ b).2.2
        = 1000 * (if 2048 ≤ b then min 2048 file.length
            else min b file.length) / bw) := by
  refine ⟨throttleTimes_sep, ?_, ?_, ?_⟩
  · intro bw s t gap size rest hle
    rw [throttleTimes_head]
    exact max_eq_left hle
  · intro bw ps g s t hbw
    have hne : ps ++ [((g : ℚ), (0 : Nat))] ≠ [] := by simp
    have hspan := throttleTimes_span bw (ps ++ [(g, 0)]) s t hne
    have hdrop : (ps ++ [((g : ℚ), (0 : Nat))]).dropLast = ps := by simp
    have hlen : (ps ++ [((g : ℚ), (0 : Nat))]).length - 1 = ps.length := by simp
    rw [hdrop, hlen] at hspan
    refine le_trans (add_le_add_left ?_ _) hspan
    exact (div_le_div_iff_of_pos_right hbw).mpr (sub_le_self _ (Nat.cast_nonneg _))
  · intro bw file h b hf hb
    rw [thr_read_streaming bw file h b hb hf]

/-- Witness for C3 (amended): concrete instances of all four conjuncts; the
third is a full drain of one 5-byte chunk followed by the end-of-stream pull
at budget 1. -/
theorem throttle_lagging_amended_witness :
    ((0 : Nat) + 1 < ([((0 : ℚ), 2), ((0 : ℚ), 3)]).length ∧
      (throttleTimes 1 ⟨0⟩ 0 [(0, 2), (0, 3)]).getD 0 0
          + ((([((0 : ℚ), 2), ((0 : ℚ), 3)]).getD 0 (0, 0)).2 : ℚ) / 1
        ≤ (throttleTimes 1 ⟨0⟩ 0 [(0, 2), (0, 3)]).getD 1 0) ∧
    ((throttleTimes 1 ⟨0⟩ 0 [((0 : ℚ), 5)]).getD 0 0 = 0 + 0) ∧
    ((0 : ℚ) < 1 ∧
      (throttleTimes 1 ⟨0⟩ 0 ([((0 : ℚ), 5)] ++ [((0 : ℚ), 0)])).getD 0 0
          + ((([((0 : ℚ), 5)]).map fun p => ((p.2 : Nat) : ℚ)).sum
              - ((([((0 : ℚ), 5)]).getD 0 (0, 0)).2 : ℚ)) / 1
        ≤ (throttleTimes 1 ⟨0⟩ 0 ([((0 : ℚ), 5)] ++ [((0 : ℚ), 0)])).getD
            ([((0 : ℚ), 5)]).length 0) ∧
    ((ThrottledHashAtEndOfBody.read 100 ⟨[7], [], 0⟩ 1).2.2
        = 1000 * (if 2048 ≤ 1 then min 2048 ([7] : List Nat).length
            else min 1 ([7] : List Nat).length) / 100) :=
  ⟨⟨by decide, throttle_lagging_amended.1 1 [(0, 2), (0, 3)] ⟨0⟩ 0 0 (by decide)⟩,
   throttle_lagging_amended.2.1 1 ⟨0⟩ 0 0 5 [] (by norm_num),
   ⟨one_pos, throttle_lagging_amended.2.2.1 1 [((0 : ℚ), 5)] 0 ⟨0⟩ 0 one_pos⟩,
   throttle_lagging_amended.2.2.2 100 [7] [] 1 (List.cons_ne_nil _ _)
     (by decide)⟩

/-- Counterexample for C3 as stated: the very first read of the
thread-blocking throttled source (100-byte file, 100 bytes/sec budget,
100-byte caller buffer) delivers the first chunk only after a 1000 ms sleep —
the delay is inserted before delivering the current (first) chunk. -/
theorem sync_throttle_first_chunk_delayed :
    (ThrottledHashAtEndOfBody.read 100 (HashBody.init (List.replicate 100 7))
        100).1 = List.replicate 100 7 ∧
    (ThrottledHashAtEndOfBody.read 100 (HashBody.init (List.replicate 100 7))
        100).2.2 = 1000 := by
  constructor <;> rfl

/-- C4. Once the digest-trailing source is done (file exhausted, all 40
trailer bytes delivered), every later pull returns zero bytes with unchanged
state, a whole drain delivers nothing, and the stream variant returns `none`
forever; no error is ever produced. -/
theorem done_state_eof_forever :
    (∀ (h : List Nat) (b : Nat),
      HashAtEndOfBody.read ⟨[], h, 40⟩ b = ([], ⟨[], h, 40⟩)) ∧
    (∀ (h : List Nat) (sizes : Nat → Nat) (i fuel : Nat),
      drainSync fuel ⟨[], h, 40⟩ sizes i = []) ∧
    (∀ h : List Nat,
      BytesStreamHashAtEnd.pollNext ⟨[], h, true⟩ = (none, ⟨[], h, true⟩)) := by
  refine ⟨fun h b => read_done h 40 b (le_refl 40), ?_, fun h => rfl⟩
  intro h sizes i fuel
  cases fuel with
  | zero => rfl
  | succ n => simp [drainSync, read_done h 40 (sizes i) (le_refl 40)]

/-- C5. An error of the wrapped source is propagated unchanged and the
wrapper's own state (hash accumulator, trailer offset, done flag) is exactly
as before the failed pull, in both the stream and the async reader models. -/
theorem source_error_propagation :
    (∀ (e : Nat) (rest : List (Except Nat (List Nat))) (h : List Nat)
        (dn : Bool),
      BytesStreamHashAtEnd.pollNext ⟨Except.error e :: rest, h, dn⟩
        = (some (Except.error e), ⟨rest, h, dn⟩)) ∧
    (∀ (e b : Nat) (w : HashWrap),
      AsyncReadHashAtEnd.pollRead (Except.error e) b w = (Except.error e, w)) :=
  ⟨fun _ _ _ _ => rfl, fun _ _ _ => rfl⟩

/-- C6. Pulls never panic: the guarded read (which returns `none` exactly at
the source's potential panic points — slice bounds and `usize` underflow)
always succeeds, a zero-length buffer pull is a valid pull returning zero
bytes with the whole state (trailer offset included) unchanged, in the sync
model for every state and in the async model for every reachable wrapper
state. -/
theorem read_zero_buffer_safe :
    (∀ (s : HashBody) (b : Nat),
      HashAtEndOfBody.readChecked s b = some (HashAtEndOfBody.read s b)) ∧
    (∀ s : HashBody, HashAtEndOfBody.read s 0 = ([], s)) ∧
    (∀ w : HashWrap, w.hash_read ≤ 40 →
      AsyncReadHashAtEnd.pollRead (Except.ok []) 0 w = (Except.ok [], w)) := by
  refine ⟨?_, ?_, ?_⟩
  · intro s b
    simp only [HashAtEndOfBody.read, HashAtEndOfBody.readChecked]
    split_ifs <;> first | rfl | (exfalso; omega)
  · intro s
    rcases s with ⟨file, h, r⟩
    simp only [HashAtEndOfBody.read]
    split_ifs with h1 h2 h3
    · have e1 : min 40 (r + 0) = r := by omega
      rw [e1]
      simp [Nat.sub_self, Nat.min_zero, Nat.zero_min]
    · exfalso
      omega
    · simp [Nat.zero_min]
    · exfalso
      omega
  · intro w hr
    rcases w with ⟨h, r⟩
    simp only [AsyncReadHashAtEnd.pollRead]
    split_ifs with h1 h2 h3
    · exfalso
      simp at h1
    · have e1 : min 40 (r + 0) = r := by omega
      rw [e1]
      simp [Nat.sub_self]
    · exfalso
      omega
    · rfl

/-- Witness for C6: the async zero-length-buffer pull at the initial wrapper
state. -/
theorem read_zero_buffer_safe_witness :
    ((⟨[], 0⟩ : HashWrap).hash_read ≤ 40) ∧
    AsyncReadHashAtEnd.pollRead (Except.ok []) 0 ⟨[], 0⟩
      = (Except.ok [], ⟨[], 0⟩) :=
  ⟨by decide, read_zero_buffer_safe.2.2 ⟨[], 0⟩ (by decide)⟩

/-- C7. A zero-byte delivery of the cooperative throttled source resets the
sleep deadline to the (already reached) current instant, so the throttle
delay imposed on the following pull is exactly what it would have been had
the zero-byte delivery not occurred: zero in both cases. -/
theorem zero_byte_delivery_delay_unchanged (bw : ℚ) (s : ThrottleState)
    (t u : ℚ) (h : (throttleStep bw s t 0).1 ≤ u) :
    delayFor (throttleStep bw s t 0).2 u = delayFor s u ∧
    delayFor (throttleStep bw s t 0).2 u = 0 := by
  have h1 : (throttleStep bw s t 0).1 = max t s.deadline := rfl
  have hdl : (throttleStep bw s t 0).2.deadline = max t s.deadline := by
    simp [throttleStep]
  rw [h1] at h
  have e1 : delayFor (throttleStep bw s t 0).2 u = 0 := by
    unfold delayFor
    rw [hdl]
    exact max_eq_left (sub_nonpos.mpr h)
  have e2 : delayFor s u = 0 := by
    unfold delayFor
    exact max_eq_left (sub_nonpos.mpr (le_trans (le_max_right t _) h))
  exact ⟨e1.trans e2.symm, e1⟩

/-- Witness for C7: a zero-byte delivery at time 0 from a zero deadline. -/
theorem zero_byte_delivery_delay_unchanged_witness :
    ((throttleStep 1 ⟨0⟩ 0 0).1 ≤ 0) ∧
    delayFor (throttleStep 1 ⟨0⟩ 0 0).2 0 = delayFor ⟨0⟩ 0 :=
  ⟨by simp [throttleStep],
   (zero_byte_delivery_delay_unchanged 1 ⟨0⟩ 0 0 (by simp [throttleStep])).1⟩

/-- C8. For one input, delivered through any chunking of the inner stream and
any positive caller buffer sizes, the four models of the digest-trailing
pipeline — the blocking `HashAtEndOfBody`, the file-backed async
`AsyncReadHashAtEnd`, the stream `BytesStreamHashAtEnd`, and the blocking
throttled `ThrottledHashAtEndOfBody` at any bandwidth — produce byte-identical
concatenated output: the input followed by its 40-character hex digest. -/
theorem pipeline_models_byte_identical (input : List Nat)
    (cs : List (List Nat)) (sizes asizes tsizes : Nat → Nat) (bw : Nat)
    (h1 : ∀ j, 0 < sizes j) (h2 : ∀ j, 0 < asizes j)
    (h3 : ∀ j, 0 < tsizes j) (hcs : cs.flatten = input) :
    drainSync (input.length + 41) (HashBody.init input) sizes 0
        = input ++ sha1Hex input ∧
    drainAsync (input.length + 41) (HashBody.init input) asizes 0
        = input ++ sha1Hex input ∧
    (drainStream (cs.length + 2) (BSHash.init (cs.map Except.ok))).flatten
        = input ++ sha1Hex input ∧
    drainThrottled bw (input.length + 41) (HashBody.init input) tsizes 0
        = input ++ sha1Hex input := by
  subst hcs
  refine ⟨?_, ?_, ?_, ?_⟩
  · simpa [HashBody.init] using
      drainSync_spec sizes h1 (cs.flatten.length + 41) cs.flatten [] 0 (le_refl _)
  · simpa [HashBody.init] using
      drainAsync_spec asizes h2 (cs.flatten.length + 41) cs.flatten [] 0 (le_refl _)
  · simpa [BSHash.init] using drainStream_spec cs (cs.length + 2) [] (le_refl _)
  · simpa [HashBody.init] using
      drainThrottled_spec bw tsizes h3 (cs.flatten.length + 41) cs.flatten [] 0
        (le_refl _)

/-- Witness for C8: the concrete test input, delivered as one stream chunk,
drained with constant buffer size 4. -/
theorem pipeline_models_byte_identical_witness :
    (∀ j : Nat, 0 < (fun _ => (4 : Nat)) j) ∧
    ([helloBytes] : List (List Nat)).flatten = helloBytes ∧
    drainSync (helloBytes.length + 41) (HashBody.init helloBytes)
        (fun _ => 4) 0 = helloBytes ++ sha1Hex helloBytes :=
  ⟨fun _ => Nat.succ_pos 3, by simp,
   (pipeline_models_byte_identical helloBytes [helloBytes] (fun _ => 4)
      (fun _ => 4) (fun _ => 4) 7 (fun _ => Nat.succ_pos 3)
      (fun _ => Nat.succ_pos 3) (fun _ => Nat.succ_pos 3) (by simp)).1⟩

/-- C9. The thread-blocking throttled source sleeps only on reads that
deliver file bytes: any read on an exhausted file — every trailer read and
every end-of-stream read — returns with zero sleep regardless of the budget,
and conversely a read with a nonzero sleep delivered a nonempty file-data
chunk. -/
theorem sync_throttle_trailer_unthrottled (bw : Nat) (s : HashBody) (b : Nat) :
    (s.file = [] → (ThrottledHashAtEndOfBody.read bw s b).2.2 = 0) ∧
    ((ThrottledHashAtEndOfBody.read bw s b).2.2 ≠ 0 →
      (ThrottledHashAtEndOfBody.read bw s b).1
          = s.file.take (if 2048 ≤ b then min 2048 s.file.length
              else min b s.file.length) ∧
      (ThrottledHashAtEndOfBody.read bw s b).1 ≠ []) := by
  constructor
  · intro hf
    rcases s with ⟨file, h, r⟩
    simp only at hf
    subst hf
    rw [thr_read_on_empty]
  · intro hsl
    rcases s with ⟨file, h, r⟩
    simp only [ThrottledHashAtEndOfBody.read] at hsl ⊢
    split_ifs at hsl ⊢ <;>
      first
        | (exact absurd rfl hsl)
        | (refine ⟨rfl, ?_⟩
           intro hnil
           have h9 := congrArg List.length hnil
           simp only [List.length_take, List.length_nil] at h9
           omega)

/-- Witness for C9: a trailer-delivering read (empty file, empty hash input,
40-byte buffer) returns with zero sleep. -/
theorem sync_throttle_trailer_unthrottled_witness :
    ((⟨[], [], 0⟩ : HashBody).file = []) ∧
    (ThrottledHashAtEndOfBody.read 7 ⟨[], [], 0⟩ 40).2.2 = 0 :=
  ⟨rfl, (sync_throttle_trailer_unthrottled 7 ⟨[], [], 0⟩ 40).1 rfl⟩

/-- C10. One read of the thread-blocking throttled source consumes at most
2048 bytes of the file and delivers at most 2048 bytes, whatever the caller's
buffer size. -/
theorem sync_throttle_chunk_cap (bw : Nat) (s : HashBody) (b : Nat) :
    s.file.length - (ThrottledHashAtEndOfBody.read bw s b).2.1.file.length
        ≤ 2048 ∧
    ((ThrottledHashAtEndOfBody.read bw s b).1).length ≤ 2048 := by
  rcases s with ⟨file, h, r⟩
  simp only [ThrottledHashAtEndOfBody.read]
  split_ifs <;>
    refine ⟨?_, ?_⟩ <;>
      simp only [List.length_drop, List.length_take, List.length_nil,
        sha1Hex_length] <;>
      omega

end Raze
